import Mathlib

/-!
Shallow embedding of the weave-endpoint manifest resolution and mutation
engine (src/src/processWeave.js), together with theorems checking the
natural-language specification against it.

Conventions used throughout:
* JavaScript objects become Lean structures; a field that the manifest may
  lack (and whose absence the code can observe) becomes an `Option`.
* In-place mutation becomes explicit state passing; a JavaScript `TypeError`
  thrown by reading or writing a property of `undefined` becomes
  `Except.error` with a message describing the failed access.
* String truthiness: `undefined` and the empty string are falsy, every
  other string and every object is truthy.
* The regular expressions in the source are embedded by functions on
  character lists; `.` never matches a newline, so captures stop at a
  newline character. The replacement text is modelled literally (none of
  the directive values exercised contain replacement patterns).
-/

namespace Weave

/-! ### Version resolution (parseWeave / chooseWeaveManifest) -/

/-- `process.env.WEAVE_VERSION || '2.8.8'`, modelled at its default. -/
def WEAVE_VERSION : String := "2.8.8"

def weaveReleaseUrl (version fileName : String) : String :=
  "https://github.com/rajch/weave/releases/download/v" ++ version ++ "/" ++ fileName

def weaveSourceUrl (fileName : String) : String :=
  weaveReleaseUrl WEAVE_VERSION fileName

/-- The fixed descending threshold table of `processWeave.js` (`manifestMap`):
pairs of a minor-version threshold (kept as the source keeps it, a string)
and the source manifest url. -/
def manifestMap : List (String × String) :=
  [("11", weaveSourceUrl "weave-daemonset-k8s-1.11.yaml"),
   ("9", weaveSourceUrl "weave-daemonset-k8s-1.9.yaml"),
   ("8", weaveSourceUrl "weave-daemonset-k8s-1.8.yaml")]

/-- The value of a decimal digit character. -/
def digitVal (c : Char) : Nat := c.toNat - 48

/-- Numeric value of a list of decimal digit characters. -/
def digitsToNat (l : List Char) : Nat :=
  l.foldl (fun n c => 10 * n + digitVal c) 0

/-- JavaScript `parseInt`, restricted to the decimal case exercised by the
source: the maximal leading run of decimal digits is converted; no digits
at all gives `NaN`, modelled as `none`. -/
def parseIntJS (s : String) : Option Nat :=
  let ds := s.toList.takeWhile Char.isDigit
  if ds.isEmpty then none else some (digitsToNat ds)

/-- JavaScript `>=` on numbers-or-NaN: any comparison with `NaN` is false. -/
def jsGe : Option Nat → Option Nat → Bool
  | some a, some b => a ≥ b
  | _, _ => false

structure ManifestMatchStatus where
  matched : Bool
  manifestUrl : Option String := none
deriving Repr, DecidableEq

/-- `chooseWeaveManifest` from the source: fail unless major is exactly
`"1"`, else take the first `manifestMap` entry whose threshold is numerically
at most the minor version. -/
def chooseWeaveManifest (major minor : String) : ManifestMatchStatus :=
  if major ≠ "1" then { matched := false }
  else
    match manifestMap.find? (fun mm => jsGe (parseIntJS minor) (parseIntJS mm.1)) with
    | some mm => { matched := true, manifestUrl := some mm.2 }
    | none => { matched := false }

/-- Written from the spec wording, for comparison with `chooseWeaveManifest`:
resolution fails unless `major == "1"`; otherwise the highest applicable
threshold of the descending table 11, 9, 8 wins under numeric comparison,
and no applicable threshold means failure. -/
def resolveBySpecTable (major : String) (minorNum : Nat) : ManifestMatchStatus :=
  if major = "1" then
    if minorNum ≥ 11 then
      { matched := true, manifestUrl := some (weaveSourceUrl "weave-daemonset-k8s-1.11.yaml") }
    else if minorNum ≥ 9 then
      { matched := true, manifestUrl := some (weaveSourceUrl "weave-daemonset-k8s-1.9.yaml") }
    else if minorNum ≥ 8 then
      { matched := true, manifestUrl := some (weaveSourceUrl "weave-daemonset-k8s-1.8.yaml") }
    else { matched := false }
  else { matched := false }

/-! ### Data model of the located DaemonSet target resource

Fields whose absence the mutation code can observe (reads or method calls
on possibly-`undefined` values) are `Option`s.  A missing `containers`
array is modelled as the empty list: every access the code performs
distinguishes the two in the same way (both give a `TypeError` at the same
points along the modelled paths). -/

structure SecretKeyRef where
  key : String
  name : String
deriving Repr, DecidableEq

structure EnvVar where
  name : String
  value : Option String := none
  valueFrom : Option SecretKeyRef := none
deriving Repr, DecidableEq

structure Container where
  name : Option String := none
  image : Option String := none
  env : Option (List EnvVar) := none
deriving Repr, DecidableEq

/-- An insertion-ordered string-keyed object, as used for
`securityContext.seLinuxOptions`. -/
structure StrMap where
  entries : List (String × String)
deriving Repr, DecidableEq

structure SecurityContext where
  seLinuxOptions : Option StrMap := none
deriving Repr, DecidableEq

structure PodSpec where
  containers : List Container := []
  initContainers : Option (List Container) := none
  securityContext : Option SecurityContext := none
deriving Repr, DecidableEq

structure PodTemplate where
  spec : PodSpec
deriving Repr, DecidableEq

structure DaemonSetSpec where
  template : PodTemplate
deriving Repr, DecidableEq

structure DaemonSet where
  spec : DaemonSetSpec
deriving Repr, DecidableEq

def setContainers (ds : DaemonSet) (cs : List Container) : DaemonSet :=
  { ds with spec.template.spec.containers := cs }

/-- JavaScript truthiness of a possibly-undefined string. -/
def strTruthy : Option String → Bool
  | none => false
  | some s => !s.isEmpty

/-! ### Environment variable upsert (`upsertEnvVar`) -/

/-- The modification `upsertEnvVar` performs on the existing entry at the
found index: `if (element.valueFrom) { delete value; valueFrom := ... }`
then `if (element.value) { delete valueFrom; value := ... }`, with
JavaScript truthiness (so an empty-string `value` triggers nothing). -/
def upsertModify (element existing : EnvVar) : EnvVar :=
  let e1 := if element.valueFrom.isSome then
      { existing with value := none, valueFrom := element.valueFrom }
    else existing
  if strTruthy element.value then
      { e1 with valueFrom := none, value := element.value }
  else e1

/-- `upsertEnvVar(envvararray, element)`: modify the first entry whose
`name` equals `element.name`, else push `element` at the end. -/
def upsertEnvVar : List EnvVar → EnvVar → List EnvVar
  | [], element => [element]
  | v :: vs, element =>
    if v.name = element.name then upsertModify element v :: vs
    else v :: upsertEnvVar vs element

/-- The fixed allow-list `allowedEnvVars` of the source, verbatim. -/
def allowedEnvVars : List String :=
  ["CHECKPOINT_DISABLE",
   "CONN_LIMIT",
   "HAIRPIN_MODE",
   "IPALLOC_RANGE",
   "EXPECT_NPC",
   "IPALLOC_INIT",
   "WEAVE_EXPOSE_IP",
   "WEAVE_METRICS_ADDR",
   "WEAVE_PASSWORD",
   "WEAVE_STATUS_ADDR",
   "WEAVE_MTU",
   "NO_MASQ_LOCAL",
   "IPTABLES_BACKEND"]

/-- `processEnvVar(varname, varvalue, ds)`: upsert onto
`ds.spec.template.spec.containers[0].env` when the name is allow-listed,
else log and ignore.  Errors model the `TypeError`s thrown when the first
container or its `env` array is missing. -/
def processEnvVar (varname varvalue : String) (ds : DaemonSet) : Except String DaemonSet :=
  if varname ∈ allowedEnvVars then
    match ds.spec.template.spec.containers with
    | [] => .error "TypeError: cannot read env of undefined"
    | c0 :: rest =>
      match c0.env with
      | none => .error "TypeError: envvararray.findIndex is not a function"
      | some envs =>
        .ok (setContainers ds
          ({ c0 with env := some (upsertEnvVar envs { name := varname, value := some varvalue }) } :: rest))
  else
    .ok ds

/-! ### SELinux options (`processSELinuxOption`) -/

/-- JavaScript string-keyed property assignment: overwrite in place when
the key exists, else append. -/
def objSet : List (String × String) → String → String → List (String × String)
  | [], k, v => [(k, v)]
  | (k0, v0) :: rest, k, v =>
    if k0 = k then (k0, v) :: rest else (k0, v0) :: objSet rest k v

/-- `processSELinuxOption(optname, optval, ds)`: write
`ds.spec.template.spec.securityContext.seLinuxOptions[optname] = optval`,
throwing when `securityContext` or `seLinuxOptions` is missing. -/
def processSELinuxOption (optname optval : String) (ds : DaemonSet) : Except String DaemonSet :=
  match ds.spec.template.spec.securityContext with
  | none => .error "TypeError: cannot read seLinuxOptions of undefined"
  | some sc =>
    match sc.seLinuxOptions with
    | none => .error "TypeError: cannot set properties of undefined"
    | some m =>
      let sc2 : SecurityContext := { sc with seLinuxOptions := some ⟨objSet m.entries optname optval⟩ }
      .ok { ds with spec.template.spec.securityContext := some sc2 }

/-! ### The version directive (`processVersion`) -/

/-- `imageName.replace(/:(.*)$/, ':' + optval)` on the character list of the
image reference: the leftmost match of the pattern starts at the first
colon, and the greedy group swallows the whole remainder, so everything
from the first colon on is replaced; with no colon nothing matches.
(Image references are newline-free, which this embedding assumes.) -/
def replaceTagChars (optval : List Char) : List Char → List Char
  | [] => []
  | c :: cs => if c = ':' then c :: optval else c :: replaceTagChars optval cs

def replaceImageTag (imageName optval : String) : String :=
  ⟨replaceTagChars optval.toList imageName.toList⟩

/-- `processVersion(optname, optval, ds)`: retag the image of the first
init-container when one exists, of the first container, and of the second
container when one exists.  Errors model the `TypeError`s thrown when
`initContainers` is missing, the first container is missing, or an
accessed `image` is missing. -/
def processVersion (optval : String) (ds : DaemonSet) : Except String DaemonSet :=
  match ds.spec.template.spec.initContainers with
  | none => .error "TypeError: cannot read 0 of undefined"
  | some inits =>
    let step2 : List Container → Except String DaemonSet := fun inits2 =>
      match ds.spec.template.spec.containers with
      | [] => .error "TypeError: cannot read image of undefined"
      | c0 :: rest =>
        match c0.image with
        | none => .error "TypeError: imageName.replace is not a function"
        | some img0 =>
          let c02 : Container := { c0 with image := some (replaceImageTag img0 optval) }
          match rest with
          | [] =>
            .ok { ds with spec.template.spec.initContainers := some inits2,
                          spec.template.spec.containers := [c02] }
          | c1 :: rest2 =>
            match c1.image with
            | none => .error "TypeError: imageName.replace is not a function"
            | some img1 =>
              let c12 : Container := { c1 with image := some (replaceImageTag img1 optval) }
              .ok { ds with spec.template.spec.initContainers := some inits2,
                            spec.template.spec.containers := c02 :: c12 :: rest2 }
    match inits with
    | [] => step2 []
    | ci :: irest =>
      match ci.image with
      | none => .error "TypeError: imageName.replace is not a function"
      | some imgI => step2 ({ ci with image := some (replaceImageTag imgI optval) } :: irest)

/-! ### The disable-npc directive (`processDisableNPC`) -/

/-- The `findIndex`/`splice(index, 1)` pair of `processDisableNPC`: remove
the first container whose `name` equals `"weave-npc"`. -/
def removeFirstNpc : List Container → List Container
  | [] => []
  | c :: rest => if c.name = some "weave-npc" then rest else c :: removeFirstNpc rest

/-- `processDisableNPC(optname, optval, ds)`: a no-op unless the value is
exactly `"true"`; when active, set `EXPECT_NPC=0` through `processEnvVar`
and then remove the first container named `weave-npc`. -/
def processDisableNPC (optval : String) (ds : DaemonSet) : Except String DaemonSet :=
  if optval ≠ "true" then .ok ds
  else
    match processEnvVar "EXPECT_NPC" "0" ds with
    | .error e => .error e
    | .ok ds1 => .ok (setContainers ds1 (removeFirstNpc ds1.spec.template.spec.containers))

/-! ### The password-secret directive (`processPasswordSecret`) -/

/-- `processPasswordSecret(optname, optval, ds)`: a no-op on a falsy
(empty) value; otherwise upsert `WEAVE_PASSWORD` with a secret key
reference whose name and key are both the value. -/
def processPasswordSecret (optval : String) (ds : DaemonSet) : Except String DaemonSet :=
  if optval.isEmpty then .ok ds
  else
    match ds.spec.template.spec.containers with
    | [] => .error "TypeError: cannot read env of undefined"
    | c0 :: rest =>
      match c0.env with
      | none => .error "TypeError: envvararray.findIndex is not a function"
      | some envs =>
        let pw : EnvVar := { name := "WEAVE_PASSWORD", valueFrom := some ⟨optval, optval⟩ }
        .ok (setContainers ds ({ c0 with env := some (upsertEnvVar envs pw) } :: rest))

/-- Property names every plain object literal inherits from
`Object.prototype`, for which the lookup `otherOptionsMap[optname]` yields
a truthy value even though they are not own keys of the dispatch table,
and whose invocation as `processor(optname, optval, ds)` — a strict-mode
plain call, so `this` is `undefined` — returns without effect:
`constructor` is the `Object` function, which wraps its first argument and
the result is discarded; `isPrototypeOf` returns false for a non-object
argument before touching `this`; `toString` returns a tag string for an
undefined `this`. -/
def protoBenignProps : List String :=
  ["constructor", "isPrototypeOf", "toString"]

/-- The remaining property names inherited from `Object.prototype`, whose
dispatch throws a `TypeError`: the value looked up for `__proto__` is
`Object.prototype` itself, an object that is not callable, and the other
methods begin by converting their undefined `this` to an object. -/
def protoThrowingProps : List String :=
  ["hasOwnProperty", "propertyIsEnumerable", "toLocaleString", "valueOf",
   "__proto__", "__defineGetter__", "__defineSetter__", "__lookupGetter__",
   "__lookupSetter__"]

/-- `otherOptionsMap` lookup plus dispatch (`processOtherOptions`):
`const processor = otherOptionsMap[optname]` is JavaScript property
lookup, which walks the prototype chain.  The three own keys dispatch to
their processors; names inherited from `Object.prototype` pass the
truthiness test and are invoked, either returning without effect
(`protoBenignProps`) or throwing a `TypeError` (`protoThrowingProps`);
every other name finds `undefined`, is logged and ignored. -/
def processOtherOptions (optname optval : String) (ds : DaemonSet) : Except String DaemonSet :=
  if optname = "version" then processVersion optval ds
  else if optname = "disable-npc" then processDisableNPC optval ds
  else if optname = "password-secret" then processPasswordSecret optval ds
  else if optname = "__proto__" then .error "TypeError: processor is not a function"
  else if optname ∈ protoBenignProps then .ok ds
  else if optname ∈ protoThrowingProps then .error "TypeError: cannot convert undefined to object"
  else .ok ds

/-! ### Parameter classification and the directive loop (`processManifest`) -/

/-- Leftmost occurrence of `pat` as a contiguous sublist of `s`; returns
the characters after that occurrence.  This is the matching done by the
unanchored `String.match` calls of the source. -/
def findSubstrSuffix (pat : List Char) : List Char → Option (List Char)
  | [] => if pat.isEmpty then some [] else none
  | c :: cs =>
    if pat.isPrefixOf (c :: cs) then some (List.drop pat.length (c :: cs))
    else findSubstrSuffix pat cs

/-- `key.match(re)` for an embedded pattern `pat(.*)`: the capture group
runs from just after the leftmost occurrence of `pat` to the next newline
or the end of the key (`.` does not match a newline). -/
def regexCaptureAfter (pat s : String) : Option String :=
  (findSubstrSuffix pat.toList s.toList).map fun cs => ⟨cs.takeWhile (fun c => c ≠ '\n')⟩

inductive ParamClass where
  | envDirective (varname : String)
  | seLinuxDirective (optname : String)
  | otherDirective
deriving Repr, DecidableEq

/-- The if-chain of the directive loop body: try `/env\.(.*)/` first, then
`/seLinuxOptions\.(.*)/`, else fall through to the named dispatch. -/
def classifyParam (key : String) : ParamClass :=
  match regexCaptureAfter "env." key with
  | some n => .envDirective n
  | none =>
    match regexCaptureAfter "seLinuxOptions." key with
    | some n => .seLinuxDirective n
    | none => .otherDirective

def processParam (key value : String) (ds : DaemonSet) : Except String DaemonSet :=
  match classifyParam key with
  | .envDirective n => processEnvVar n value ds
  | .seLinuxDirective n => processSELinuxOption n value ds
  | .otherDirective => processOtherOptions key value ds

/-- The `for (const opt of params.entries())` loop of `processManifest`,
restricted to the located DaemonSet it mutates.  An error from a directive
aborts the loop, as a thrown `TypeError` would. -/
def processParams : List (String × String) → DaemonSet → Except String DaemonSet
  | [], ds => .ok ds
  | (k, v) :: rest, ds =>
    match processParam k v ds with
    | .error e => .error e
    | .ok ds2 => processParams rest ds2

/-! ### The manifest cache (`processWeaveManifest`) -/

structure FetchResponse where
  status : Nat
  body : String
deriving Repr, DecidableEq

/-- `cacheMap[url]`: `none` models an absent key. -/
def cacheGet (cache : List (String × String)) (url : String) : Option String :=
  (cache.find? (fun p => p.1 == url)).map Prod.snd

def cachePut (cache : List (String × String)) (url text : String) : List (String × String) :=
  objSet cache url text

/-- Result of the fetch/cache layer of `processWeaveManifest`: the text
handed on to `processManifest`, the cache afterwards, and how many network
retrievals were performed. -/
structure FetchOutcome where
  text : String
  cache : List (String × String)
  retrievals : Nat
deriving Repr, DecidableEq

def fetchRemote (network : String → FetchResponse) (cache : List (String × String))
    (url : String) : FetchOutcome :=
  let r := network url
  { text := r.body,
    cache := if r.status = 200 then cachePut cache url r.body else cache,
    retrievals := 1 }

/-- The fetch/cache layer of `processWeaveManifest`, with the downstream
`processManifest` call abstracted away (it receives `FetchOutcome.text`).
`network` stands for `fetch` followed by `.text()`; the source content for
a given url is immutable upstream, so the oracle is a function of the url.
Note the truthiness test `if (manifest)`: a cached empty string is treated
as a cache miss. -/
def fetchManifestText (network : String → FetchResponse) (cache : List (String × String))
    (url : String) : FetchOutcome :=
  match cacheGet cache url with
  | some m => if !m.isEmpty then { text := m, cache := cache, retrievals := 0 }
              else fetchRemote network cache url
  | none => fetchRemote network cache url

/-! ### Observation helpers and well-formedness -/

/-- First env entry with the given name, the observation the spec's
properties are phrased in. -/
def findNamed (arr : List EnvVar) (n : String) : Option EnvVar :=
  arr.find? (fun x => x.name == n)

/-- Number of env entries with the given name. -/
def countNamed (arr : List EnvVar) (n : String) : Nat :=
  arr.countP (fun x => x.name == n)

/-- Exactly one of `value`/`valueFrom` populated. -/
def exactlyOne (e : EnvVar) : Prop :=
  (e.value.isSome = true ∧ e.valueFrom = none) ∨ (e.value = none ∧ e.valueFrom.isSome = true)

instance (e : EnvVar) : Decidable (exactlyOne e) := by
  unfold exactlyOne
  infer_instance

/-- The manifest shape the directive functions dereference without
checking: an seLinuxOptions object under a securityContext, an
initContainers array whose members carry images, and a nonempty containers
array whose members all carry an env array and an image — with at least
one container not named `weave-npc`, so that the npc removal can never
empty the array. -/
def dsWF (ds : DaemonSet) : Prop :=
  (ds.spec.template.spec.securityContext.bind SecurityContext.seLinuxOptions).isSome = true ∧
  ds.spec.template.spec.initContainers.isSome = true ∧
  (∀ c ∈ ds.spec.template.spec.initContainers.getD [], c.image.isSome = true) ∧
  (∀ c ∈ ds.spec.template.spec.containers, c.env.isSome = true ∧ c.image.isSome = true) ∧
  (∃ c ∈ ds.spec.template.spec.containers, ¬ c.name = some "weave-npc")

instance (ds : DaemonSet) : Decidable (dsWF ds) := by
  unfold dsWF
  infer_instance

/-! ### Concrete sample resources -/

/-- The weave container of the released manifest, abridged. -/
def weaveContainer : Container :=
  { name := some "weave",
    image := some "ghcr.io/rajch/weave-kube:2.8.8",
    env := some [{ name := "INIT_CONTAINER", value := some "true" }] }

/-- The weave-npc container of the released manifest, abridged. -/
def npcContainer : Container :=
  { name := some "weave-npc",
    image := some "ghcr.io/rajch/weave-npc:2.8.8",
    env := some [] }

def weaveInitContainer : Container :=
  { name := some "weave-init",
    image := some "ghcr.io/rajch/weave-kube:2.8.8",
    env := some [] }

/-- A DaemonSet with the released manifest's layout. -/
def sampleDS : DaemonSet :=
  { spec := { template := { spec :=
      { containers := [weaveContainer, npcContainer],
        initContainers := some [weaveInitContainer],
        securityContext := some { seLinuxOptions := some ⟨[]⟩ } } } } }

/-- A located DaemonSet with none of the optional structure present. -/
def bareDS : DaemonSet :=
  { spec := { template := { spec := { containers := [] } } } }

/-- A DaemonSet whose first container image carries a registry port, so
the image reference contains two colons. -/
def portImageDS : DaemonSet :=
  { spec := { template := { spec :=
      { containers := [{ name := some "weave",
                         image := some "localhost:5000/weave-kube:2.8.8",
                         env := some [] }],
        initContainers := some [],
        securityContext := some { seLinuxOptions := some ⟨[]⟩ } } } } }

/-- Did the mutation stage complete without a thrown error? -/
def resultOk : Except String DaemonSet → Bool
  | .ok _ => true
  | .error _ => false

/-- The thrown error of a failed run, if any. -/
def resultErr : Except String DaemonSet → Option String
  | .ok _ => none
  | .error e => some e

/-- A query-parameter list whose named-directive keys avoid the
`Object.prototype` names whose inherited dispatch throws (keys classified
as env-var or security-context directives are unconstrained). -/
def paramsSafe (params : List (String × String)) : Prop :=
  ∀ p ∈ params, classifyParam p.1 = ParamClass.otherDirective → p.1 ∉ protoThrowingProps

instance (params : List (String × String)) : Decidable (paramsSafe params) := by
  unfold paramsSafe
  infer_instance

/-- A network oracle answering success with an empty body. -/
def emptyBodyNet : String → FetchResponse := fun _ => { status := 200, body := "" }

/-- A network oracle answering success with a nonempty body. -/
def okNet : String → FetchResponse := fun _ => { status := 200, body := "kind: List" }

/-! ## Shared lemmas about the env-var upsert -/

theorem upsertModify_name (e x : EnvVar) : (upsertModify e x).name = x.name := by
  unfold upsertModify
  dsimp only
  split <;> split <;> rfl

theorem strTruthy_some_of_ne (v : String) (hv : v ≠ "") : strTruthy (some v) = true := by
  have h : v.isEmpty = false := by
    rcases h : v.isEmpty
    · rfl
    · exact absurd ((String.isEmpty_iff v).mp h) hv
  simp [strTruthy, h]

theorem strTruthy_some_empty : strTruthy (some "") = false := by decide

theorem upsertModify_value (n v : String) (x : EnvVar) (hv : v ≠ "") :
    upsertModify { name := n, value := some v } x = { x with valueFrom := none, value := some v } := by
  unfold upsertModify
  simp [strTruthy_some_of_ne v hv]

theorem upsertModify_secret (n : String) (ref : SecretKeyRef) (x : EnvVar) :
    upsertModify { name := n, valueFrom := some ref } x
      = { x with value := none, valueFrom := some ref } := by
  unfold upsertModify
  simp [strTruthy]

theorem upsertModify_empty (n : String) (x : EnvVar) :
    upsertModify { name := n, value := some "" } x = x := by
  unfold upsertModify
  simp [strTruthy_some_empty]

theorem findNamed_upsert_value (arr : List EnvVar) (n v : String) (hv : v ≠ "") :
    findNamed (upsertEnvVar arr { name := n, value := some v }) n
      = some { name := n, value := some v } := by
  induction arr with
  | nil => simp [upsertEnvVar, findNamed]
  | cons w ws ih =>
    by_cases hw : w.name = n
    · simp only [upsertEnvVar, hw, if_pos rfl]
      rw [upsertModify_value n v w hv]
      simp [findNamed, List.find?, hw]
    · simp only [upsertEnvVar, if_neg hw]
      have hbeq : (w.name == n) = false := by simpa using hw
      simpa [findNamed, List.find?, hbeq] using ih

theorem findNamed_upsert_secret (arr : List EnvVar) (n : String) (ref : SecretKeyRef) :
    findNamed (upsertEnvVar arr { name := n, valueFrom := some ref }) n
      = some { name := n, valueFrom := some ref } := by
  induction arr with
  | nil => simp [upsertEnvVar, findNamed]
  | cons w ws ih =>
    by_cases hw : w.name = n
    · simp only [upsertEnvVar, hw, if_pos rfl]
      rw [upsertModify_secret n ref w]
      simp [findNamed, List.find?, hw]
    · simp only [upsertEnvVar, if_neg hw]
      have hbeq : (w.name == n) = false := by simpa using hw
      simpa [findNamed, List.find?, hbeq] using ih

theorem countNamed_upsert (arr : List EnvVar) (e : EnvVar) :
    countNamed (upsertEnvVar arr e) e.name = max 1 (countNamed arr e.name) := by
  induction arr with
  | nil => simp [upsertEnvVar, countNamed]
  | cons w ws ih =>
    by_cases hw : w.name = e.name
    · simp only [upsertEnvVar, if_pos hw]
      simp [countNamed, List.countP_cons, upsertModify_name, hw]
    · simp only [upsertEnvVar, if_neg hw]
      simp only [countNamed, List.countP_cons] at ih ⊢
      simp [hw, ih]

theorem upsert_idem (arr : List EnvVar) (e : EnvVar) (hfix : upsertModify e e = e) :
    upsertEnvVar (upsertEnvVar arr e) e = upsertEnvVar arr e := by
  have hmod : ∀ x : EnvVar, upsertModify e (upsertModify e x) = upsertModify e x := by
    intro x
    unfold upsertModify
    dsimp only
    rcases hf : e.valueFrom.isSome <;> rcases hv : strTruthy e.value <;> simp [hf, hv]
  induction arr with
  | nil =>
    simp [upsertEnvVar, hfix]
  | cons w ws ih =>
    by_cases hw : w.name = e.name
    · simp only [upsertEnvVar, if_pos hw]
      have : (upsertModify e w).name = e.name := by rw [upsertModify_name, hw]
      simp [upsertEnvVar, this, hmod]
    · simp only [upsertEnvVar, if_neg hw]
      simp [upsertEnvVar, hw, ih]

theorem upsert_exactlyOne (arr : List EnvVar) (e : EnvVar) (he : exactlyOne e)
    (h : ∀ x ∈ arr, exactlyOne x) : ∀ x ∈ upsertEnvVar arr e, exactlyOne x := by
  have hmod : ∀ x : EnvVar, exactlyOne x → exactlyOne (upsertModify e x) := by
    intro x hx
    unfold upsertModify
    dsimp only
    rcases he with ⟨hv, hf⟩ | ⟨hv, hf⟩
    · simp only [hf, Option.isSome_none, Bool.false_eq_true, if_false]
      rcases ht : strTruthy e.value
      · simpa [ht] using hx
      · simp only [if_pos rfl]
        left
        exact ⟨hv, rfl⟩
    · have ht : strTruthy e.value = false := by simp [hv, strTruthy]
      simp only [hf, if_pos rfl, ht, Bool.false_eq_true, if_false]
      right
      exact ⟨rfl, hf⟩
  induction arr with
  | nil =>
    intro x hx
    simp only [upsertEnvVar, List.mem_singleton] at hx
    exact hx ▸ he
  | cons w ws ih =>
    intro x hx
    by_cases hw : w.name = e.name
    · simp only [upsertEnvVar, if_pos hw, List.mem_cons] at hx
      rcases hx with rfl | hx
      · exact hmod w (h w (by simp))
      · exact h x (by simp [hx])
    · simp only [upsertEnvVar, if_neg hw, List.mem_cons] at hx
      rcases hx with rfl | hx
      · exact h x (by simp)
      · exact ih (fun y hy => h y (by simp [hy])) x hx

/-! ## Claim C5: the allow-list -/

/-- Claim C5, counterexample: the fixed allow-list has thirteen entries,
not twelve as the claim states. -/
theorem c5_counterexample : allowedEnvVars.length = 13 ∧ allowedEnvVars.length ≠ 12 := by
  decide

/-- Claim C5, as amended: an env-var directive is applied only when the
name is on the fixed allow-list, a closed enumerated set of exactly
thirteen variable names; for every name outside it the directive is
dropped and the target is left unchanged, so no entry of that name is ever
created. -/
theorem c5_theorem : allowedEnvVars.length = 13 ∧
    ∀ name, name ∉ allowedEnvVars → ∀ v ds, processEnvVar name v ds = .ok ds := by
  refine ⟨by decide, ?_⟩
  intro name hn v ds
  simp [processEnvVar, hn]

theorem c5_witness : "UNKNOWN_VAR" ∉ allowedEnvVars ∧
    processEnvVar "UNKNOWN_VAR" "x" sampleDS = .ok sampleDS :=
  ⟨by decide, c5_theorem.2 "UNKNOWN_VAR" (by decide) "x" sampleDS⟩

/-! ## Claim C6: mutual exclusion of value and valueFrom -/

/-- Claim C6, counterexample: upserting a plain value that is the empty
string onto an entry holding a secret reference does not clear the
reference and does not set the value (the source tests the value with
JavaScript truthiness, and the empty string is falsy). -/
theorem c6_counterexample :
    upsertEnvVar [{ name := "WEAVE_PASSWORD", valueFrom := some ⟨"weave-passwd", "weave-passwd"⟩ }]
        { name := "WEAVE_PASSWORD", value := some "" }
      = [{ name := "WEAVE_PASSWORD", valueFrom := some ⟨"weave-passwd", "weave-passwd"⟩ }] ∧
    (some (⟨"weave-passwd", "weave-passwd"⟩ : SecretKeyRef) ≠ none) := by
  decide

/-- Claim C6, as amended: supplying a non-empty plain value clears any
existing secret reference on the entry of that name and sets the value;
supplying a secret reference clears any existing plain value and sets the
reference; and the upsert preserves the invariant that every entry has
exactly one of value/valueFrom populated, provided the supplied element
does. -/
theorem c6_theorem (arr : List EnvVar) (n : String) :
    (∀ v : String, v ≠ "" →
      findNamed (upsertEnvVar arr { name := n, value := some v }) n
        = some { name := n, value := some v }) ∧
    (∀ ref : SecretKeyRef,
      findNamed (upsertEnvVar arr { name := n, valueFrom := some ref }) n
        = some { name := n, valueFrom := some ref }) ∧
    (∀ e : EnvVar, exactlyOne e → (∀ x ∈ arr, exactlyOne x) →
      ∀ x ∈ upsertEnvVar arr e, exactlyOne x) := by
  refine ⟨?_, ?_, ?_⟩
  · intro v hv
    exact findNamed_upsert_value arr n v hv
  · intro ref
    exact findNamed_upsert_secret arr n ref
  · intro e he h
    exact upsert_exactlyOne arr e he h

theorem c6_witness :
    ("s3cret" : String) ≠ "" ∧
    findNamed (upsertEnvVar [{ name := "WEAVE_PASSWORD", valueFrom := some ⟨"w", "w"⟩ }]
        { name := "WEAVE_PASSWORD", value := some "s3cret" }) "WEAVE_PASSWORD"
      = some { name := "WEAVE_PASSWORD", value := some "s3cret" } ∧
    findNamed (upsertEnvVar [{ name := "WEAVE_PASSWORD", value := some "pw" }]
        { name := "WEAVE_PASSWORD", valueFrom := some ⟨"w", "w"⟩ }) "WEAVE_PASSWORD"
      = some { name := "WEAVE_PASSWORD", valueFrom := some ⟨"w", "w"⟩ } :=
  ⟨by decide,
   (c6_theorem [{ name := "WEAVE_PASSWORD", valueFrom := some ⟨"w", "w"⟩ }] "WEAVE_PASSWORD").1
     "s3cret" (by decide),
   (c6_theorem [{ name := "WEAVE_PASSWORD", value := some "pw" }] "WEAVE_PASSWORD").2.1
     ⟨"w", "w"⟩⟩

/-! ## Claim C7: idempotence of the env-var directive -/

/-- Claim C7, counterexample: with the empty string as value, applying the
directive (once or twice) onto an array already holding an entry of that
name leaves the old value in place, so the result does not hold an entry
with the supplied value. -/
theorem c7_counterexample :
    upsertEnvVar [{ name := "WEAVE_MTU", value := some "1500" }]
        { name := "WEAVE_MTU", value := some "" }
      = [{ name := "WEAVE_MTU", value := some "1500" }] ∧
    (some ("1500" : String) ≠ some "") := by
  decide

/-- Claim C7, as amended: the env-var upsert is idempotent for every array,
name and value — applying the same directive twice yields the same final
state as applying it once; moreover, when the value is non-empty, the
result holds the entry of that name with that value, and the number of
entries of that name is `max 1` of what it was, so a second application
never adds a second entry. -/
theorem c7_theorem (arr : List EnvVar) (n v : String) :
    upsertEnvVar (upsertEnvVar arr { name := n, value := some v }) { name := n, value := some v }
      = upsertEnvVar arr { name := n, value := some v } ∧
    countNamed (upsertEnvVar arr { name := n, value := some v }) n = max 1 (countNamed arr n) ∧
    (v ≠ "" →
      findNamed (upsertEnvVar arr { name := n, value := some v }) n
        = some { name := n, value := some v }) := by
  refine ⟨?_, countNamed_upsert arr { name := n, value := some v }, ?_⟩
  · apply upsert_idem
    unfold upsertModify
    dsimp only
    rcases hv : strTruthy (some v) <;> simp [hv]
  · intro hv
    exact findNamed_upsert_value arr n v hv

theorem c7_witness :
    upsertEnvVar (upsertEnvVar [] { name := "WEAVE_MTU", value := some "1337" })
        { name := "WEAVE_MTU", value := some "1337" }
      = upsertEnvVar [] { name := "WEAVE_MTU", value := some "1337" } ∧
    countNamed (upsertEnvVar [] { name := "WEAVE_MTU", value := some "1337" }) "WEAVE_MTU"
      = max 1 (countNamed [] "WEAVE_MTU") ∧
    ("1337" : String) ≠ "" ∧
    findNamed (upsertEnvVar [] { name := "WEAVE_MTU", value := some "1337" }) "WEAVE_MTU"
      = some { name := "WEAVE_MTU", value := some "1337" } :=
  ⟨(c7_theorem [] "WEAVE_MTU" "1337").1,
   (c7_theorem [] "WEAVE_MTU" "1337").2.1,
   by decide,
   (c7_theorem [] "WEAVE_MTU" "1337").2.2 (by decide)⟩

/-! ## Claim C10: the empty string as plain value -/

/-- Claim C10, confirmed: with the empty string as plain value, the upsert
is a complete no-op on an array already holding an entry of that name (in
particular an existing secret reference survives), while on an array with
no entry of that name it appends the entry with the empty value; through
`processEnvVar` this applies to every allow-listed name. -/
theorem c10_theorem (arr : List EnvVar) (n : String) :
    ((∃ x ∈ arr, x.name = n) →
      upsertEnvVar arr { name := n, value := some "" } = arr) ∧
    ((∀ x ∈ arr, x.name ≠ n) →
      upsertEnvVar arr { name := n, value := some "" } = arr ++ [{ name := n, value := some "" }]) ∧
    (∀ ds c0 rest envs, n ∈ allowedEnvVars →
      ds.spec.template.spec.containers = c0 :: rest → c0.env = some envs →
      processEnvVar n "" ds = .ok (setContainers ds
        ({ c0 with env := some (upsertEnvVar envs { name := n, value := some "" }) } :: rest))) := by
  refine ⟨?_, ?_, ?_⟩
  · intro hex
    induction arr with
    | nil => simp at hex
    | cons w ws ih =>
      by_cases hw : w.name = n
      · simp only [upsertEnvVar, if_pos hw, upsertModify_empty]
      · simp only [upsertEnvVar, if_neg hw]
        rcases hex with ⟨x, hx, hxn⟩
        rcases List.mem_cons.mp hx with rfl | hx
        · exact absurd hxn hw
        · rw [ih ⟨x, hx, hxn⟩]
  · intro hall
    induction arr with
    | nil => simp [upsertEnvVar]
    | cons w ws ih =>
      have hw : ¬ w.name = n := hall w (by simp)
      simp only [upsertEnvVar, if_neg hw]
      rw [ih (fun y hy => hall y (by simp [hy]))]
      simp
  · intro ds c0 rest envs hn hc he
    simp [processEnvVar, hn, hc, he]

theorem c10_witness :
    ((∃ x ∈ [{ name := "WEAVE_PASSWORD", valueFrom := some (⟨"w", "w"⟩ : SecretKeyRef) }],
        EnvVar.name x = "WEAVE_PASSWORD") ∧
      upsertEnvVar [{ name := "WEAVE_PASSWORD", valueFrom := some ⟨"w", "w"⟩ }]
          { name := "WEAVE_PASSWORD", value := some "" }
        = [{ name := "WEAVE_PASSWORD", valueFrom := some ⟨"w", "w"⟩ }]) ∧
    ((∀ x ∈ ([] : List EnvVar), EnvVar.name x ≠ "WEAVE_MTU") ∧
      upsertEnvVar [] { name := "WEAVE_MTU", value := some "" }
        = [] ++ [{ name := "WEAVE_MTU", value := some "" }]) :=
  ⟨⟨by decide,
    (c10_theorem [{ name := "WEAVE_PASSWORD", valueFrom := some ⟨"w", "w"⟩ }] "WEAVE_PASSWORD").1
      ⟨{ name := "WEAVE_PASSWORD", valueFrom := some ⟨"w", "w"⟩ }, by simp, rfl⟩⟩,
   ⟨by simp,
    (c10_theorem [] "WEAVE_MTU").2.1 (by simp)⟩⟩

/-! ## Shared lemmas about image tag replacement -/

theorem replaceTagChars_not_mem (v l : List Char) (h : ':' ∉ l) :
    replaceTagChars v l = l := by
  induction l with
  | nil => rfl
  | cons c cs ih =>
    have hc : ¬ c = ':' := fun hc => h (by simp [hc])
    simp [replaceTagChars, hc, ih (fun hm => h (by simp [hm]))]

theorem replaceTagChars_append (v a b : List Char) (h : ':' ∉ a) :
    replaceTagChars v (a ++ ':' :: b) = a ++ ':' :: v := by
  induction a with
  | nil => simp [replaceTagChars]
  | cons c cs ih =>
    have hc : ¬ c = ':' := fun hc => h (by simp [hc])
    simp [replaceTagChars, hc, ih (fun hm => h (by simp [hm]))]

theorem replaceImageTag_no_colon (img v : String) (h : ':' ∉ img.toList) :
    replaceImageTag img v = img := by
  obtain ⟨l⟩ := img
  show String.mk (replaceTagChars v.toList l) = String.mk l
  exact congrArg String.mk (replaceTagChars_not_mem v.toList l h)

theorem replaceImageTag_first_colon (a b v : String) (h : ':' ∉ a.toList) :
    replaceImageTag (a ++ ":" ++ b) v = a ++ ":" ++ v := by
  obtain ⟨la⟩ := a
  obtain ⟨lb⟩ := b
  obtain ⟨lv⟩ := v
  show String.mk (replaceTagChars lv ((la ++ [':']) ++ lb)) = String.mk ((la ++ [':']) ++ lv)
  have h2 : ':' ∉ la := h
  have ha : (la ++ [':']) ++ lb = la ++ ':' :: lb := by simp
  rw [ha, replaceTagChars_append lv la lb h2]
  exact congrArg String.mk (by simp)

/-! ## Claim C2: the version directive -/

/-- Claim C2, counterexample: on an image reference with two colons
(registry port plus tag), the version directive replaces everything after
the first colon, not the text after the last colon as the claim states. -/
theorem c2_counterexample :
    (processVersion "2.9.0" portImageDS).toOption.map
        (fun ds => ds.spec.template.spec.containers.map Container.image)
      = some [some "localhost:2.9.0"] ∧
    some ("localhost:2.9.0" : String) ≠ some "localhost:5000/weave-kube:2.9.0" := by
  decide

/-- Claim C2, as amended: applying version=v replaces everything from the
first colon on (equivalently, the text after the first colon) in the image
of the first init-container (if present), the first container, and the
second container (if present) with `:v`; an image reference containing no
colon is left unmodified. -/
theorem c2_theorem :
    (∀ img v : String, ':' ∉ img.toList → replaceImageTag img v = img) ∧
    (∀ a b v : String, ':' ∉ a.toList →
      replaceImageTag (a ++ ":" ++ b) v = a ++ ":" ++ v) ∧
    (∀ (v : String) (ds : DaemonSet) (ci c0 c1 : Container) (irest rest2 : List Container)
       (imgI img0 img1 : String),
      ds.spec.template.spec.initContainers = some (ci :: irest) → ci.image = some imgI →
      ds.spec.template.spec.containers = c0 :: c1 :: rest2 →
      c0.image = some img0 → c1.image = some img1 →
      processVersion v ds = .ok { ds with
        spec.template.spec.initContainers := some ({ ci with image := some (replaceImageTag imgI v) } :: irest),
        spec.template.spec.containers := { c0 with image := some (replaceImageTag img0 v) } :: { c1 with image := some (replaceImageTag img1 v) } :: rest2 }) ∧
    (∀ (v : String) (ds : DaemonSet) (c0 : Container) (img0 : String),
      ds.spec.template.spec.initContainers = some [] →
      ds.spec.template.spec.containers = [c0] → c0.image = some img0 →
      processVersion v ds = .ok { ds with
        spec.template.spec.initContainers := some ([] : List Container),
        spec.template.spec.containers := [{ c0 with image := some (replaceImageTag img0 v) }] }) := by
  refine ⟨?_, ?_, ?_, ?_⟩
  · intro img v h
    exact replaceImageTag_no_colon img v h
  · intro a b v h
    exact replaceImageTag_first_colon a b v h
  · intro v ds ci c0 c1 irest rest2 imgI img0 img1 hInit hci hC h0 h1
    simp [processVersion, hInit, hci, hC, h0, h1]
  · intro v ds c0 img0 hInit hC h0
    simp [processVersion, hInit, hC, h0]

theorem c2_witness :
    (':' ∉ ("weave-kube" : String).toList) ∧
    replaceImageTag "weave-kube" "2.9.0" = "weave-kube" ∧
    replaceImageTag ("ghcr.io/rajch/weave-kube" ++ ":" ++ "2.8.8") "2.9.0"
      = "ghcr.io/rajch/weave-kube" ++ ":" ++ "2.9.0" ∧
    processVersion "2.9.0" sampleDS = .ok { sampleDS with
      spec.template.spec.initContainers := some ({ weaveInitContainer with image := some (replaceImageTag "ghcr.io/rajch/weave-kube:2.8.8" "2.9.0") } :: []),
      spec.template.spec.containers := { weaveContainer with image := some (replaceImageTag "ghcr.io/rajch/weave-kube:2.8.8" "2.9.0") } :: { npcContainer with image := some (replaceImageTag "ghcr.io/rajch/weave-npc:2.8.8" "2.9.0") } :: [] } :=
  ⟨by decide,
   c2_theorem.1 "weave-kube" "2.9.0" (by decide),
   c2_theorem.2.1 "ghcr.io/rajch/weave-kube" "2.8.8" "2.9.0" (by decide),
   c2_theorem.2.2.1 "2.9.0" sampleDS weaveInitContainer weaveContainer npcContainer [] []
     "ghcr.io/rajch/weave-kube:2.8.8" "ghcr.io/rajch/weave-kube:2.8.8" "ghcr.io/rajch/weave-npc:2.8.8"
     rfl rfl rfl rfl rfl⟩

/-! ## Claim C3: version resolution against the threshold table -/

/-- Claim C3, confirmed: resolution returns matched=false unless major is
exactly "1"; otherwise the first (hence highest) entry of the descending
threshold table 11, 9, 8 whose threshold is numerically at most the minor
version is selected, with matched=false when none qualifies; in particular
minor 28 resolves to the entry with threshold 11. -/
theorem c3_theorem :
    (∀ (major minor : String) (n : Nat), parseIntJS minor = some n →
      chooseWeaveManifest major minor = resolveBySpecTable major n) ∧
    chooseWeaveManifest "1" "28"
      = { matched := true, manifestUrl := some (weaveSourceUrl "weave-daemonset-k8s-1.11.yaml") } := by
  constructor
  · intro major minor n h
    by_cases hmaj : major = "1"
    · subst hmaj
      have e11 : parseIntJS "11" = some 11 := by decide
      have e9 : parseIntJS "9" = some 9 := by decide
      have e8 : parseIntJS "8" = some 8 := by decide
      simp only [chooseWeaveManifest, resolveBySpecTable, manifestMap, if_pos rfl]
      rw [if_neg (by simp)]
      simp only [List.find?, h, e11, e9, e8]
      rcases Nat.lt_or_ge n 11 with h11 | h11
      · rcases Nat.lt_or_ge n 9 with h9 | h9
        · rcases Nat.lt_or_ge n 8 with hh8 | hh8
          · simp [jsGe, Nat.not_le.mpr h11, Nat.not_le.mpr h9, Nat.not_le.mpr hh8]
          · simp [jsGe, Nat.not_le.mpr h11, Nat.not_le.mpr h9, hh8]
        · simp [jsGe, Nat.not_le.mpr h11, h9]
      · simp [jsGe, h11]
    · simp [chooseWeaveManifest, resolveBySpecTable, hmaj]
  · decide

theorem c3_witness :
    parseIntJS "28" = some 28 ∧
    chooseWeaveManifest "1" "28" = resolveBySpecTable "1" 28 :=
  ⟨by decide, c3_theorem.1 "1" "28" 28 (by decide)⟩

/-! ## Shared lemmas about unanchored substring matching -/

theorem findSubstrSuffix_exists (pat : List Char) (hp : pat ≠ []) :
    ∀ (s suf : List Char), findSubstrSuffix pat s = some suf → ∃ pre, s = pre ++ pat ++ suf := by
  intro s
  induction s with
  | nil =>
    intro suf h
    have he : pat.isEmpty = false := by
      rcases pat with _ | ⟨c, cs⟩
      · exact absurd rfl hp
      · rfl
    simp [findSubstrSuffix, he] at h
  | cons c cs ih =>
    intro suf h
    by_cases hpre : pat.isPrefixOf (c :: cs) = true
    · simp only [findSubstrSuffix, if_pos hpre] at h
      obtain ⟨t, ht⟩ := List.isPrefixOf_iff_prefix.mp hpre
      refine ⟨[], ?_⟩
      have hsuf : List.drop pat.length (c :: cs) = suf := by
        injection h
      rw [← ht] at hsuf ⊢
      rw [List.drop_left] at hsuf
      simp [hsuf]
    · simp only [findSubstrSuffix, if_neg hpre] at h
      obtain ⟨pre, hpre2⟩ := ih suf h
      exact ⟨c :: pre, by simp [hpre2]⟩

theorem findSubstrSuffix_isSome (pat : List Char) (hp : pat ≠ []) :
    ∀ (pre suf : List Char), (findSubstrSuffix pat (pre ++ pat ++ suf)).isSome = true := by
  intro pre
  induction pre with
  | nil =>
    intro suf
    rcases hp2 : pat with _ | ⟨p, ps⟩
    · exact absurd hp2 hp
    · have hpre : (p :: ps).isPrefixOf (p :: ps ++ suf) = true :=
        List.isPrefixOf_iff_prefix.mpr ⟨suf, by simp⟩
      simp [findSubstrSuffix, hpre]
  | cons c cp ih =>
    intro suf
    show (findSubstrSuffix pat (c :: (cp ++ pat ++ suf))).isSome = true
    by_cases hpre : pat.isPrefixOf (c :: (cp ++ pat ++ suf)) = true
    · simp only [findSubstrSuffix, if_pos hpre]
      rfl
    · simp only [findSubstrSuffix, if_neg hpre]
      exact ih suf

theorem findSubstrSuffix_longest (pat : List Char) (hp : pat ≠ []) :
    ∀ (s suf : List Char), findSubstrSuffix pat s = some suf →
      ∀ pre2 suf2, s = pre2 ++ pat ++ suf2 → suf2.length ≤ suf.length := by
  intro s
  induction s with
  | nil =>
    intro suf h
    have he : pat.isEmpty = false := by
      rcases pat with _ | ⟨c, cs⟩
      · exact absurd rfl hp
      · rfl
    simp [findSubstrSuffix, he] at h
  | cons c cs ih =>
    intro suf h pre2 suf2 hs
    by_cases hpre : pat.isPrefixOf (c :: cs) = true
    · simp only [findSubstrSuffix, if_pos hpre] at h
      have hsuf : List.drop pat.length (c :: cs) = suf := by injection h
      have hlen : suf.length = (c :: cs).length - pat.length := by
        rw [← hsuf, List.length_drop]
      have hslen : (c :: cs).length = pre2.length + pat.length + suf2.length := by
        rw [hs]
        simp [List.length_append]
        omega
      have hple : pat.length ≤ (c :: cs).length := by omega
      omega
    · simp only [findSubstrSuffix, if_neg hpre] at h
      rcases pre2 with _ | ⟨c2, pre2t⟩
      · exfalso
        apply hpre
        apply List.isPrefixOf_iff_prefix.mpr
        refine ⟨suf2, ?_⟩
        simpa using hs.symm
      · have hc : cs = pre2t ++ pat ++ suf2 := by
          have := hs
          simp only [List.cons_append, List.append_assoc] at this
          injection this with h1 h2
          simpa [List.append_assoc] using h2
        exact ih suf h pre2t suf2 (by simpa [List.append_assoc] using hc)

theorem takeWhile_no_newline (l : List Char) (h : '\n' ∉ l) :
    l.takeWhile (fun c => c ≠ '\n') = l := by
  simp only [List.takeWhile_eq_self_iff, decide_eq_true_eq]
  intro x hx e
  exact h (e ▸ hx)

theorem capture_isSome_iff (pat key : String) (hp : pat.toList ≠ []) :
    (∃ n, regexCaptureAfter pat key = some n) ↔
      ∃ pre suf, key.toList = pre ++ pat.toList ++ suf := by
  constructor
  · rintro ⟨n, hn⟩
    unfold regexCaptureAfter at hn
    rcases h : findSubstrSuffix pat.toList key.toList with _ | suf
    · rw [h] at hn
      simp at hn
    · obtain ⟨pre, hpre⟩ := findSubstrSuffix_exists pat.toList hp key.toList suf h
      exact ⟨pre, suf, hpre⟩
  · rintro ⟨pre, suf, hdec⟩
    have hsome := findSubstrSuffix_isSome pat.toList hp pre suf
    rw [← hdec] at hsome
    rcases hs : findSubstrSuffix pat.toList key.toList with _ | s
    · rw [hs] at hsome
      simp at hsome
    · refine ⟨⟨s.takeWhile (fun c => c ≠ '\n')⟩, ?_⟩
      unfold regexCaptureAfter
      rw [hs]
      rfl

theorem capture_name (pat key n : String) (hp : pat.toList ≠ []) (hnl : '\n' ∉ key.toList)
    (h : regexCaptureAfter pat key = some n) :
    ∃ pre, key.toList = pre ++ pat.toList ++ n.toList ∧
      ∀ pre2 suf2, key.toList = pre2 ++ pat.toList ++ suf2 →
        suf2.length ≤ n.toList.length := by
  unfold regexCaptureAfter at h
  rcases hs : findSubstrSuffix pat.toList key.toList with _ | suf
  · rw [hs] at h
    simp at h
  · rw [hs] at h
    have hn : (⟨suf.takeWhile (fun c => c ≠ '\n')⟩ : String) = n := by
      simpa using h
    obtain ⟨pre, hpre⟩ := findSubstrSuffix_exists pat.toList hp key.toList suf hs
    have hsub : '\n' ∉ suf := by
      intro hm
      apply hnl
      rw [hpre]
      simp [hm]
    have hnn : n.toList = suf := by
      rw [← hn]
      show suf.takeWhile (fun c => c ≠ '\n') = suf
      exact takeWhile_no_newline suf hsub
    refine ⟨pre, ?_, ?_⟩
    · rw [hnn, hpre]
    · intro pre2 suf2 h2
      rw [hnn]
      exact findSubstrSuffix_longest pat.toList hp key.toList suf hs pre2 suf2 h2

theorem classify_env_eq (key n : String) :
    classifyParam key = ParamClass.envDirective n ↔ regexCaptureAfter "env." key = some n := by
  unfold classifyParam
  rcases h : regexCaptureAfter "env." key with _ | m
  · rcases h2 : regexCaptureAfter "seLinuxOptions." key <;> simp
  · simp

theorem classify_selinux_eq (key n : String) :
    classifyParam key = ParamClass.seLinuxDirective n ↔
      (regexCaptureAfter "env." key = none ∧
        regexCaptureAfter "seLinuxOptions." key = some n) := by
  unfold classifyParam
  rcases h : regexCaptureAfter "env." key with _ | m
  · rcases h2 : regexCaptureAfter "seLinuxOptions." key <;> simp
  · simp

theorem classify_other_eq (key : String) :
    classifyParam key = ParamClass.otherDirective ↔
      (regexCaptureAfter "env." key = none ∧
        regexCaptureAfter "seLinuxOptions." key = none) := by
  unfold classifyParam
  rcases h : regexCaptureAfter "env." key with _ | m
  · rcases h2 : regexCaptureAfter "seLinuxOptions." key <;> simp
  · simp

/-! ## Claim C9: parameter classification -/

/-- Claim C9, counterexample: the key `xenv.CONN_LIMIT` does not begin
with the `env.` string, yet the directive loop classifies it as an
environment-variable directive (the source matches the pattern anywhere
in the key, not anchored at the start). -/
theorem c9_counterexample :
    classifyParam "xenv.CONN_LIMIT" = ParamClass.envDirective "CONN_LIMIT" ∧
    ("env.".toList.isPrefixOf "xenv.CONN_LIMIT".toList) = false := by
  decide

/-- Claim C9, as amended: a parameter key is classified as an
environment-variable directive exactly when it contains `env.` anywhere
(the variable name being the remainder after the leftmost occurrence, the
longest suffix following the pattern), as a security-context directive
exactly when it does not contain `env.` but contains `seLinuxOptions.`,
and otherwise dispatched as a named directive; the if-chain is
first-match-wins and the categories are mutually exclusive. -/
theorem c9_theorem (key : String) (hnl : '\n' ∉ key.toList) :
    ((∃ n, classifyParam key = ParamClass.envDirective n) ↔
      ∃ pre suf, key.toList = pre ++ "env.".toList ++ suf) ∧
    (∀ n, classifyParam key = ParamClass.envDirective n →
      ∃ pre, key.toList = pre ++ "env.".toList ++ n.toList ∧
        ∀ pre2 suf2, key.toList = pre2 ++ "env.".toList ++ suf2 →
          suf2.length ≤ n.toList.length) ∧
    ((∃ n, classifyParam key = ParamClass.seLinuxDirective n) ↔
      ((¬ ∃ pre suf, key.toList = pre ++ "env.".toList ++ suf) ∧
        ∃ pre suf, key.toList = pre ++ "seLinuxOptions.".toList ++ suf)) ∧
    (classifyParam key = ParamClass.otherDirective ↔
      ((¬ ∃ pre suf, key.toList = pre ++ "env.".toList ++ suf) ∧
        ¬ ∃ pre suf, key.toList = pre ++ "seLinuxOptions.".toList ++ suf)) ∧
    (∀ (v : String) (ds : DaemonSet) (n : String),
      (classifyParam key = ParamClass.envDirective n →
        processParam key v ds = processEnvVar n v ds) ∧
      (classifyParam key = ParamClass.seLinuxDirective n →
        processParam key v ds = processSELinuxOption n v ds) ∧
      (classifyParam key = ParamClass.otherDirective →
        processParam key v ds = processOtherOptions key v ds)) := by
  have hpe : ("env." : String).toList ≠ [] := by decide
  have hps : ("seLinuxOptions." : String).toList ≠ [] := by decide
  have henv := capture_isSome_iff "env." key hpe
  have hsel := capture_isSome_iff "seLinuxOptions." key hps
  refine ⟨?_, ?_, ?_, ?_, ?_⟩
  · constructor
    · rintro ⟨n, hn⟩
      exact henv.mp ⟨n, (classify_env_eq key n).mp hn⟩
    · intro hdec
      obtain ⟨n, hn⟩ := henv.mpr hdec
      exact ⟨n, (classify_env_eq key n).mpr hn⟩
  · intro n hn
    exact capture_name "env." key n hpe hnl ((classify_env_eq key n).mp hn)
  · constructor
    · rintro ⟨n, hn⟩
      obtain ⟨he, hsome⟩ := (classify_selinux_eq key n).mp hn
      refine ⟨?_, hsel.mp ⟨n, hsome⟩⟩
      intro hdec
      obtain ⟨m, hm⟩ := henv.mpr hdec
      rw [he] at hm
      exact Option.noConfusion hm
    · rintro ⟨hno, hdec⟩
      have he : regexCaptureAfter "env." key = none := by
        rcases hcap : regexCaptureAfter "env." key with _ | m
        · rfl
        · exact absurd (henv.mp ⟨m, hcap⟩) hno
      obtain ⟨n, hn⟩ := hsel.mpr hdec
      exact ⟨n, (classify_selinux_eq key n).mpr ⟨he, hn⟩⟩
  · constructor
    · intro hcl
      obtain ⟨he, hs⟩ := (classify_other_eq key).mp hcl
      constructor
      · intro hdec
        obtain ⟨m, hm⟩ := henv.mpr hdec
        rw [he] at hm
        exact Option.noConfusion hm
      · intro hdec
        obtain ⟨m, hm⟩ := hsel.mpr hdec
        rw [hs] at hm
        exact Option.noConfusion hm
    · rintro ⟨hnoe, hnos⟩
      apply (classify_other_eq key).mpr
      constructor
      · rcases hcap : regexCaptureAfter "env." key with _ | m
        · rfl
        · exact absurd (henv.mp ⟨m, hcap⟩) hnoe
      · rcases hcap : regexCaptureAfter "seLinuxOptions." key with _ | m
        · rfl
        · exact absurd (hsel.mp ⟨m, hcap⟩) hnos
  · intro v ds n
    refine ⟨?_, ?_, ?_⟩ <;> intro hcl <;> simp [processParam, hcl]

theorem c9_witness :
    ('\n' ∉ ("env.WEAVE_MTU" : String).toList) ∧
    ((∃ n, classifyParam "env.WEAVE_MTU" = ParamClass.envDirective n) ↔
      ∃ pre suf, ("env.WEAVE_MTU" : String).toList = pre ++ "env.".toList ++ suf) :=
  ⟨by decide, ( c9_theorem "env.WEAVE_MTU" (by decide)).1⟩

/-! ## Shared lemmas about container removal and the cache -/

theorem setContainers_containers (ds : DaemonSet) (cs : List Container) :
    (setContainers ds cs).spec.template.spec.containers = cs := rfl

theorem setContainers_setContainers (ds : DaemonSet) (cs cs2 : List Container) :
    setContainers (setContainers ds cs) cs2 = setContainers ds cs2 := rfl

theorem removeFirstNpc_no_npc (l : List Container)
    (h : l.countP (fun c => c.name == some "weave-npc") ≤ 1) :
    ∀ c ∈ removeFirstNpc l, ¬ c.name = some "weave-npc" := by
  induction l with
  | nil => simp [removeFirstNpc]
  | cons c0 rest ih =>
    by_cases h0 : c0.name = some "weave-npc"
    · simp only [removeFirstNpc, if_pos h0]
      have hz : rest.countP (fun c => c.name == some "weave-npc") = 0 := by
        have h2 := h
        simp only [List.countP_cons] at h2
        have hb : (c0.name == some "weave-npc") = true := by simp [h0]
        rw [hb] at h2
        simp only [if_true] at h2
        omega
      intro c hc hcn
      have := List.countP_eq_zero.mp hz c hc
      simp [hcn] at this
    · simp only [removeFirstNpc, if_neg h0]
      intro c hc
      rcases List.mem_cons.mp hc with rfl | hc
      · exact h0
      · have hrest : rest.countP (fun c => c.name == some "weave-npc") ≤ 1 := by
          have := h
          simp only [List.countP_cons] at this
          omega
        exact ih hrest c hc

theorem cacheGet_cachePut_self (cache : List (String × String)) (url b : String) :
    cacheGet (cachePut cache url b) url = some b := by
  induction cache with
  | nil => simp [cacheGet, cachePut, objSet, List.find?]
  | cons p rest ih =>
    rcases p with ⟨k, w⟩
    by_cases hk : k = url
    · simp [cacheGet, cachePut, objSet, hk, List.find?]
    · have hbeq : (k == url) = false := by simpa using hk
      simp only [cachePut, objSet, if_neg hk]
      simpa [cacheGet, cachePut, List.find?, hbeq] using ih

/-! ## Claim C8: the disable-npc directive -/

/-- Claim C8, confirmed: the disable-npc directive acts only on the exact
value "true"; when active it upserts EXPECT_NPC=0 onto the first container
and removes the first container named weave-npc, so that (when the target
held at most one container of that name, as the released manifest does) no
container of that name remains. -/
theorem c8_theorem (v : String) (ds : DaemonSet) :
    (v ≠ "true" → processDisableNPC v ds = .ok ds) ∧
    (∀ c0 rest envs, ds.spec.template.spec.containers = c0 :: rest → c0.env = some envs →
      ¬ c0.name = some "weave-npc" →
      processDisableNPC "true" ds = .ok (setContainers ds
        ({ c0 with env := some (upsertEnvVar envs { name := "EXPECT_NPC", value := some "0" }) } :: removeFirstNpc rest)) ∧
      findNamed (upsertEnvVar envs { name := "EXPECT_NPC", value := some "0" }) "EXPECT_NPC"
        = some { name := "EXPECT_NPC", value := some "0" } ∧
      ((ds.spec.template.spec.containers.countP (fun c => c.name == some "weave-npc") ≤ 1) →
        ∀ c ∈ ({ c0 with env := some (upsertEnvVar envs { name := "EXPECT_NPC", value := some "0" }) } :: removeFirstNpc rest),
          ¬ c.name = some "weave-npc")) := by
  constructor
  · intro hv
    simp [processDisableNPC, hv]
  · intro c0 rest envs hc he hn0
    have hmem : "EXPECT_NPC" ∈ allowedEnvVars := by decide
    have h1 : processEnvVar "EXPECT_NPC" "0" ds = .ok (setContainers ds
        ({ c0 with env := some (upsertEnvVar envs { name := "EXPECT_NPC", value := some "0" }) } :: rest)) := by
      simp [processEnvVar, hmem, hc, he]
    refine ⟨?_, ?_, ?_⟩
    · have hne : ¬ ("true" : String) ≠ "true" := by simp
      simp only [processDisableNPC, if_neg hne, h1]
      rw [setContainers_setContainers, setContainers_containers]
      have hr : removeFirstNpc ({ c0 with env := some (upsertEnvVar envs { name := "EXPECT_NPC", value := some "0" }) } :: rest) = { c0 with env := some (upsertEnvVar envs { name := "EXPECT_NPC", value := some "0" }) } :: removeFirstNpc rest := by
        rw [removeFirstNpc]
        exact if_neg hn0
      rw [hr]
    · exact findNamed_upsert_value envs "EXPECT_NPC" "0" (by decide)
    · intro hcount
      rw [hc] at hcount
      have hrest : rest.countP (fun c => c.name == some "weave-npc") ≤ 1 := by
        simp only [List.countP_cons] at hcount
        omega
      intro c hcm
      rcases List.mem_cons.mp hcm with rfl | hcm
      · exact hn0
      · exact removeFirstNpc_no_npc rest hrest c hcm

theorem c8_witness :
    (("false" : String) ≠ "true" ∧ processDisableNPC "false" sampleDS = .ok sampleDS) ∧
    (sampleDS.spec.template.spec.containers = weaveContainer :: [npcContainer] ∧
     weaveContainer.env = some [{ name := "INIT_CONTAINER", value := some "true" }] ∧
     ¬ weaveContainer.name = some "weave-npc" ∧
     (processDisableNPC "true" sampleDS = .ok (setContainers sampleDS
        ({ weaveContainer with env := some (upsertEnvVar [{ name := "INIT_CONTAINER", value := some "true" }] { name := "EXPECT_NPC", value := some "0" }) } :: removeFirstNpc [npcContainer])) ∧
      findNamed (upsertEnvVar [{ name := "INIT_CONTAINER", value := some "true" }] { name := "EXPECT_NPC", value := some "0" }) "EXPECT_NPC"
        = some { name := "EXPECT_NPC", value := some "0" } ∧
      ((sampleDS.spec.template.spec.containers.countP (fun c => c.name == some "weave-npc") ≤ 1) →
        ∀ c ∈ ({ weaveContainer with env := some (upsertEnvVar [{ name := "INIT_CONTAINER", value := some "true" }] { name := "EXPECT_NPC", value := some "0" }) } :: removeFirstNpc [npcContainer]),
          ¬ c.name = some "weave-npc"))) :=
  ⟨⟨by decide, ( c8_theorem "false" sampleDS).1 (by decide)⟩,
   rfl, rfl, by decide,
   ( c8_theorem "true" sampleDS).2 weaveContainer [npcContainer]
     [{ name := "INIT_CONTAINER", value := some "true" }] rfl rfl (by decide)⟩

/-! ## Claim C4: the manifest cache -/

/-- Claim C4, counterexample: a successful first retrieval whose body is
the empty string is stored in the cache, but the truthiness test treats
the empty cached string as a miss, so a second sequential request fetches
again — two retrievals for two requests after a successful first fetch. -/
theorem c4_counterexample :
    (emptyBodyNet "src").status = 200 ∧
    (fetchManifestText emptyBodyNet [] "src").retrievals = 1 ∧
    (fetchManifestText emptyBodyNet (fetchManifestText emptyBodyNet [] "src").cache "src").retrievals = 1 ∧
    (fetchManifestText emptyBodyNet [] "src").retrievals
      + (fetchManifestText emptyBodyNet (fetchManifestText emptyBodyNet [] "src").cache "src").retrievals
      = 2 := by
  decide

/-- Claim C4, as amended: the first fetch of an uncached url performs one
network retrieval and hands its body on; the body is stored in the cache
if and only if the retrieval reports status 200 (a non-200 body is still
handed on but never populates the cache); and when the successful body is
non-empty, a subsequent request returns the cached text with no network
retrieval.  (A successful empty body is stored but re-fetched, because the
cache lookup tests truthiness.) -/
theorem c4_theorem (network : String → FetchResponse) (cache : List (String × String))
    (url : String) (h : cacheGet cache url = none) :
    (fetchManifestText network cache url).retrievals = 1 ∧
    (fetchManifestText network cache url).text = (network url).body ∧
    cacheGet (fetchManifestText network cache url).cache url
      = (if (network url).status = 200 then some (network url).body else none) ∧
    ((network url).status = 200 → (network url).body ≠ "" →
      fetchManifestText network (fetchManifestText network cache url).cache url
        = { text := (network url).body, cache := (fetchManifestText network cache url).cache,
            retrievals := 0 }) := by
  have hfm : fetchManifestText network cache url = fetchRemote network cache url := by
    simp [fetchManifestText, h]
  rw [hfm]
  refine ⟨rfl, rfl, ?_, ?_⟩
  · by_cases hst : (network url).status = 200
    · simp [fetchRemote, hst, cacheGet_cachePut_self]
    · simp [fetchRemote, hst, h]
  · intro hst hb
    have hcg : cacheGet (fetchRemote network cache url).cache url = some (network url).body := by
      simp [fetchRemote, hst, cacheGet_cachePut_self]
    have hemp : (network url).body.isEmpty = false := by
      rcases hx : (network url).body.isEmpty
      · rfl
      · exact absurd ((String.isEmpty_iff _).mp hx) hb
    simp [fetchManifestText, hcg, hemp]

theorem c4_witness :
    cacheGet [] "src" = none ∧
    (okNet "src").status = 200 ∧
    ¬ (okNet "src").body = "" ∧
    fetchManifestText okNet (fetchManifestText okNet [] "src").cache "src"
      = { text := (okNet "src").body, cache := (fetchManifestText okNet [] "src").cache,
          retrievals := 0 } :=
  ⟨rfl, rfl, by decide,
   (c4_theorem okNet [] "src" rfl).2.2.2 rfl (by decide)⟩

/-! ## Well-formedness is preserved by every directive -/

theorem mem_of_mem_removeFirstNpc : ∀ {l : List Container} {c : Container},
    c ∈ removeFirstNpc l → c ∈ l := by
  intro l
  induction l with
  | nil => intro c hc; simp [removeFirstNpc] at hc
  | cons c0 rest ih =>
    intro c hc
    by_cases h0 : c0.name = some "weave-npc"
    · rw [removeFirstNpc, if_pos h0] at hc
      exact List.mem_cons_of_mem c0 hc
    · rw [removeFirstNpc, if_neg h0] at hc
      rcases List.mem_cons.mp hc with rfl | hc
      · simp
      · exact List.mem_cons_of_mem c0 (ih hc)

theorem mem_removeFirstNpc_of_ne {c : Container} (hc : ¬ c.name = some "weave-npc") :
    ∀ {l : List Container}, c ∈ l → c ∈ removeFirstNpc l := by
  intro l
  induction l with
  | nil => intro h; simp at h
  | cons c0 rest ih =>
    intro h
    by_cases h0 : c0.name = some "weave-npc"
    · rw [removeFirstNpc, if_pos h0]
      rcases List.mem_cons.mp h with rfl | h
      · exact absurd h0 hc
      · exact h
    · rw [removeFirstNpc, if_neg h0]
      rcases List.mem_cons.mp h with rfl | h
      · simp
      · exact List.mem_cons_of_mem c0 (ih h)

theorem wf_processEnvVar (n v : String) (ds : DaemonSet) (h : dsWF ds) :
    ∃ ds2, processEnvVar n v ds = .ok ds2 ∧ dsWF ds2 := by
  obtain ⟨hsc, hinit, hinitimg, hcont, hex⟩ := h
  by_cases hn : n ∈ allowedEnvVars
  · rcases hc : ds.spec.template.spec.containers with _ | ⟨c0, rest⟩
    · obtain ⟨c, hcm, _⟩ := hex
      rw [hc] at hcm
      simp at hcm
    · have hc0 := hcont c0 (by rw [hc]; simp)
      rcases henv : c0.env with _ | envs
      · rw [henv] at hc0
        simp at hc0
      · refine ⟨setContainers ds
          ({ c0 with env := some (upsertEnvVar envs { name := n, value := some v }) } :: rest),
          by simp [processEnvVar, hn, hc, henv], hsc, hinit, hinitimg, ?_, ?_⟩
        · intro c hcm
          rw [setContainers_containers] at hcm
          rcases List.mem_cons.mp hcm with rfl | hcm
          · exact ⟨rfl, hc0.2⟩
          · exact hcont c (by rw [hc]; simp [hcm])
        · obtain ⟨cw, hcwm, hcwn⟩ := hex
          rw [hc] at hcwm
          rcases List.mem_cons.mp hcwm with rfl | hcwm
          · exact ⟨{ cw with env := some (upsertEnvVar envs { name := n, value := some v }) },
              by rw [setContainers_containers]; simp, hcwn⟩
          · exact ⟨cw, by rw [setContainers_containers]; simp [hcwm], hcwn⟩
  · exact ⟨ds, by simp [processEnvVar, hn], hsc, hinit, hinitimg, hcont, hex⟩

theorem wf_processSELinuxOption (n v : String) (ds : DaemonSet) (h : dsWF ds) :
    ∃ ds2, processSELinuxOption n v ds = .ok ds2 ∧ dsWF ds2 := by
  obtain ⟨hsc, hinit, hinitimg, hcont, hex⟩ := h
  rcases hsc1 : ds.spec.template.spec.securityContext with _ | sc
  · rw [hsc1] at hsc
    simp at hsc
  · rcases hsc2 : sc.seLinuxOptions with _ | m
    · rw [hsc1] at hsc
      simp [hsc2] at hsc
    · refine ⟨{ ds with spec.template.spec.securityContext := some ({ sc with seLinuxOptions := some ⟨objSet m.entries n v⟩ }) }, by simp [processSELinuxOption, hsc1, hsc2], ?_, hinit, hinitimg, hcont, hex⟩
      simp

theorem wf_processPasswordSecret (v : String) (ds : DaemonSet) (h : dsWF ds) :
    ∃ ds2, processPasswordSecret v ds = .ok ds2 ∧ dsWF ds2 := by
  obtain ⟨hsc, hinit, hinitimg, hcont, hex⟩ := h
  by_cases hv : v.isEmpty = true
  · exact ⟨ds, by simp [processPasswordSecret, hv], hsc, hinit, hinitimg, hcont, hex⟩
  · rcases hc : ds.spec.template.spec.containers with _ | ⟨c0, rest⟩
    · obtain ⟨c, hcm, _⟩ := hex
      rw [hc] at hcm
      simp at hcm
    · have hc0 := hcont c0 (by rw [hc]; simp)
      rcases henv : c0.env with _ | envs
      · rw [henv] at hc0
        simp at hc0
      · refine ⟨setContainers ds
          ({ c0 with env := some (upsertEnvVar envs
            { name := "WEAVE_PASSWORD", valueFrom := some ⟨v, v⟩ }) } :: rest),
          by simp [processPasswordSecret, hv, hc, henv], hsc, hinit, hinitimg, ?_, ?_⟩
        · intro c hcm
          rw [setContainers_containers] at hcm
          rcases List.mem_cons.mp hcm with rfl | hcm
          · exact ⟨rfl, hc0.2⟩
          · exact hcont c (by rw [hc]; simp [hcm])
        · obtain ⟨cw, hcwm, hcwn⟩ := hex
          rw [hc] at hcwm
          rcases List.mem_cons.mp hcwm with rfl | hcwm
          · exact ⟨{ cw with env := some (upsertEnvVar envs
              { name := "WEAVE_PASSWORD", valueFrom := some ⟨v, v⟩ }) },
              by rw [setContainers_containers]; simp, hcwn⟩
          · exact ⟨cw, by rw [setContainers_containers]; simp [hcwm], hcwn⟩

theorem wf_processVersion (v : String) (ds : DaemonSet) (h : dsWF ds) :
    ∃ ds2, processVersion v ds = .ok ds2 ∧ dsWF ds2 := by
  obtain ⟨hsc, hinit, hinitimg, hcont, hex⟩ := h
  rcases hI : ds.spec.template.spec.initContainers with _ | inits
  · rw [hI] at hinit
    simp at hinit
  · rcases hc : ds.spec.template.spec.containers with _ | ⟨c0, rest⟩
    · obtain ⟨c, hcm, _⟩ := hex
      rw [hc] at hcm
      simp at hcm
    · have hc0 := hcont c0 (by rw [hc]; simp)
      rcases h0 : c0.image with _ | img0
      · rw [h0] at hc0
        simp at hc0
      · rcases hIs : inits with _ | ⟨ci, irest⟩
        · rcases hr : rest with _ | ⟨c1, rest2⟩
          · refine ⟨{ ds with spec.template.spec.initContainers := some ([] : List Container), spec.template.spec.containers := [{ c0 with image := some (replaceImageTag img0 v) }] }, by simp [processVersion, hI, hIs, hc, hr, h0], ?_, by simp, ?_, ?_, ?_⟩
            · exact hsc
            · intro c hm
              simp at hm
            · intro c hm
              simp only [List.mem_singleton] at hm
              subst hm
              exact ⟨hc0.1, rfl⟩
            · obtain ⟨cw, hcwm, hcwn⟩ := hex
              rw [hc, hr] at hcwm
              simp only [List.mem_singleton] at hcwm
              subst hcwm
              exact ⟨{ cw with image := some (replaceImageTag img0 v) }, by simp, hcwn⟩
          · have hc1 := hcont c1 (by rw [hc, hr]; simp)
            rcases h1 : c1.image with _ | img1
            · rw [h1] at hc1
              simp at hc1
            · refine ⟨{ ds with spec.template.spec.initContainers := some ([] : List Container), spec.template.spec.containers := { c0 with image := some (replaceImageTag img0 v) } :: { c1 with image := some (replaceImageTag img1 v) } :: rest2 }, by simp [processVersion, hI, hIs, hc, hr, h0, h1], ?_, by simp, ?_, ?_, ?_⟩
              · exact hsc
              · intro c hm
                simp at hm
              · intro c hm
                rcases List.mem_cons.mp hm with rfl | hm
                · exact ⟨hc0.1, rfl⟩
                · rcases List.mem_cons.mp hm with rfl | hm
                  · exact ⟨hc1.1, rfl⟩
                  · exact hcont c (by rw [hc, hr]; simp [hm])
              · obtain ⟨cw, hcwm, hcwn⟩ := hex
                rw [hc, hr] at hcwm
                rcases List.mem_cons.mp hcwm with rfl | hcwm
                · exact ⟨{ cw with image := some (replaceImageTag img0 v) }, by simp, hcwn⟩
                · rcases List.mem_cons.mp hcwm with rfl | hcwm
                  · exact ⟨{ cw with image := some (replaceImageTag img1 v) }, by simp, hcwn⟩
                  · exact ⟨cw, by simp [hcwm], hcwn⟩
        · have hcii := hinitimg ci (by rw [hI, hIs]; simp)
          rcases hciI : ci.image with _ | imgI
          · rw [hciI] at hcii
            simp at hcii
          · rcases hr : rest with _ | ⟨c1, rest2⟩
            · refine ⟨{ ds with spec.template.spec.initContainers := some ({ ci with image := some (replaceImageTag imgI v) } :: irest), spec.template.spec.containers := [{ c0 with image := some (replaceImageTag img0 v) }] }, by simp [processVersion, hI, hIs, hc, hr, h0, hciI], ?_, by simp, ?_, ?_, ?_⟩
              · exact hsc
              · intro c hm
                simp only [Option.getD_some] at hm
                rcases List.mem_cons.mp hm with rfl | hm
                · rfl
                · exact hinitimg c (by rw [hI, hIs]; simp [hm])
              · intro c hm
                simp only [List.mem_singleton] at hm
                subst hm
                exact ⟨hc0.1, rfl⟩
              · obtain ⟨cw, hcwm, hcwn⟩ := hex
                rw [hc, hr] at hcwm
                simp only [List.mem_singleton] at hcwm
                subst hcwm
                exact ⟨{ cw with image := some (replaceImageTag img0 v) }, by simp, hcwn⟩
            · have hc1 := hcont c1 (by rw [hc, hr]; simp)
              rcases h1 : c1.image with _ | img1
              · rw [h1] at hc1
                simp at hc1
              · refine ⟨{ ds with spec.template.spec.initContainers := some ({ ci with image := some (replaceImageTag imgI v) } :: irest), spec.template.spec.containers := { c0 with image := some (replaceImageTag img0 v) } :: { c1 with image := some (replaceImageTag img1 v) } :: rest2 }, by simp [processVersion, hI, hIs, hc, hr, h0, h1, hciI], ?_, by simp, ?_, ?_, ?_⟩
                · exact hsc
                · intro c hm
                  simp only [Option.getD_some] at hm
                  rcases List.mem_cons.mp hm with rfl | hm
                  · rfl
                  · exact hinitimg c (by rw [hI, hIs]; simp [hm])
                · intro c hm
                  rcases List.mem_cons.mp hm with rfl | hm
                  · exact ⟨hc0.1, rfl⟩
                  · rcases List.mem_cons.mp hm with rfl | hm
                    · exact ⟨hc1.1, rfl⟩
                    · exact hcont c (by rw [hc, hr]; simp [hm])
                · obtain ⟨cw, hcwm, hcwn⟩ := hex
                  rw [hc, hr] at hcwm
                  rcases List.mem_cons.mp hcwm with rfl | hcwm
                  · exact ⟨{ cw with image := some (replaceImageTag img0 v) }, by simp, hcwn⟩
                  · rcases List.mem_cons.mp hcwm with rfl | hcwm
                    · exact ⟨{ cw with image := some (replaceImageTag img1 v) }, by simp, hcwn⟩
                    · exact ⟨cw, by simp [hcwm], hcwn⟩

theorem wf_removeNpc (ds : DaemonSet) (h : dsWF ds) :
    dsWF (setContainers ds (removeFirstNpc ds.spec.template.spec.containers)) := by
  obtain ⟨hsc, hinit, hinitimg, hcont, hex⟩ := h
  refine ⟨hsc, hinit, hinitimg, ?_, ?_⟩
  · intro c hm
    rw [setContainers_containers] at hm
    exact hcont c (mem_of_mem_removeFirstNpc hm)
  · obtain ⟨cw, hcwm, hcwn⟩ := hex
    refine ⟨cw, ?_, hcwn⟩
    rw [setContainers_containers]
    exact mem_removeFirstNpc_of_ne hcwn hcwm

theorem wf_processDisableNPC (v : String) (ds : DaemonSet) (h : dsWF ds) :
    ∃ ds2, processDisableNPC v ds = .ok ds2 ∧ dsWF ds2 := by
  by_cases hv : v = "true"
  · subst hv
    obtain ⟨ds1, hds1, hwf1⟩ := wf_processEnvVar "EXPECT_NPC" "0" ds h
    refine ⟨setContainers ds1 (removeFirstNpc ds1.spec.template.spec.containers), ?_,
      wf_removeNpc ds1 hwf1⟩
    simp [processDisableNPC, hds1]
  · exact ⟨ds, by simp [processDisableNPC, hv], h⟩

theorem wf_processOtherOptions (k v : String) (ds : DaemonSet) (h : dsWF ds)
    (hsafe : k ∉ protoThrowingProps) :
    ∃ ds2, processOtherOptions k v ds = .ok ds2 ∧ dsWF ds2 := by
  by_cases h1 : k = "version"
  · simpa [processOtherOptions, h1] using wf_processVersion v ds h
  · by_cases h2 : k = "disable-npc"
    · simpa [processOtherOptions, h1, h2] using wf_processDisableNPC v ds h
    · by_cases h3 : k = "password-secret"
      · simpa [processOtherOptions, h1, h2, h3] using wf_processPasswordSecret v ds h
      · have h4 : ¬ k = "__proto__" := by
          intro hk
          exact hsafe (hk ▸ (by decide : ("__proto__" : String) ∈ protoThrowingProps))
        by_cases h5 : k ∈ protoBenignProps
        · exact ⟨ds, by simp [processOtherOptions, h1, h2, h3, h4, h5], h⟩
        · exact ⟨ds, by simp [processOtherOptions, h1, h2, h3, h4, h5, hsafe], h⟩

theorem wf_processParam (k v : String) (ds : DaemonSet) (h : dsWF ds)
    (hsafe : classifyParam k = ParamClass.otherDirective → k ∉ protoThrowingProps) :
    ∃ ds2, processParam k v ds = .ok ds2 ∧ dsWF ds2 := by
  rcases hcl : classifyParam k with n | n | _
  · simpa [processParam, hcl] using wf_processEnvVar n v ds h
  · simpa [processParam, hcl] using wf_processSELinuxOption n v ds h
  · simpa [processParam, hcl] using wf_processOtherOptions k v ds h (hsafe hcl)

/-! ## Claim C1: the mutation stage never fails -/

/-- Claim C1, counterexample: the mutation stage is total neither over
target shapes nor over query-parameter sets.  On a located DaemonSet
whose pod spec lacks a securityContext, the SELinux directive throws a
TypeError that aborts the directive loop; and even on the well-shaped
sample target, the parameter key `__proto__` reaches the named dispatch,
the prototype-chain lookup `otherOptionsMap[optname]` finds
`Object.prototype` — truthy but not callable — and the call throws a
TypeError that aborts the loop. -/
theorem c1_counterexample :
    resultErr (processParams [("seLinuxOptions.type", "spc_t")] bareDS)
      = some "TypeError: cannot read seLinuxOptions of undefined" ∧
    resultOk (processParams [("seLinuxOptions.type", "spc_t")] bareDS) = false ∧
    dsWF sampleDS ∧
    resultErr (processParams [("__proto__", "x")] sampleDS)
      = some "TypeError: processor is not a function" ∧
    resultOk (processParams [("__proto__", "x")] sampleDS) = false := by
  decide

/-- Claim C1, as amended: for every located DaemonSet whose shape provides
the fields the directives dereference (a seLinuxOptions object under the
securityContext, an initContainers array whose members carry images, and a
nonempty containers array whose members carry env arrays and images, at
least one container not being the removable weave-npc container), and for
every query-parameter list whose named-directive keys avoid the property
names inherited from Object.prototype whose dispatch throws (such as
`__proto__`), the directive loop completes without error: each directive
applies its mutation or degrades to a logged no-op.  A malformed target
shape or a throwing inherited key aborts the pipeline with a TypeError. -/
theorem c1_theorem (params : List (String × String)) (ds : DaemonSet) (h : dsWF ds)
    (hp : paramsSafe params) :
    resultOk (processParams params ds) = true := by
  revert hp
  induction params generalizing ds with
  | nil =>
    intro _
    rfl
  | cons p rest ih =>
    intro hp
    rcases p with ⟨k, v⟩
    obtain ⟨ds2, hds2, hwf2⟩ := wf_processParam k v ds h
      (fun hcl => hp (k, v) (by simp) hcl)
    simp only [processParams, hds2]
    exact ih ds2 hwf2 (fun q hq hcl => hp q (by simp [hq]) hcl)

theorem c1_witness :
    dsWF sampleDS ∧
    paramsSafe
      [("env.WEAVE_MTU", "1337"), ("seLinuxOptions.type", "spc_t"), ("version", "2.9.0"),
       ("password-secret", "weave-passwd"), ("disable-npc", "true"), ("unknown-option", "x"),
       ("env.NOT_ALLOWED", "y")] ∧
    resultOk (processParams
      [("env.WEAVE_MTU", "1337"), ("seLinuxOptions.type", "spc_t"), ("version", "2.9.0"),
       ("password-secret", "weave-passwd"), ("disable-npc", "true"), ("unknown-option", "x"),
       ("env.NOT_ALLOWED", "y")] sampleDS) = true :=
  ⟨by decide, by decide,
   c1_theorem
     [("env.WEAVE_MTU", "1337"), ("seLinuxOptions.type", "spc_t"), ("version", "2.9.0"),
      ("password-secret", "weave-passwd"), ("disable-npc", "true"), ("unknown-option", "x"),
      ("env.NOT_ALLOWED", "y")] sampleDS (by decide) (by decide)⟩

end Weave
